import Mathlib

/-!
Verification of the bungiesearch indexing core: a shallow embedding of
the field-descriptor layer (bungiesearch/fields.py) and the index-descriptor
layer (bungiesearch/indices.py), together with proofs about field
construction, value resolution, document serialization, mapping generation
and analyzer collection.

Python dictionaries are modelled as association lists with insertion-order
semantics (assignment replaces in place, otherwise appends).  Python
exceptions are modelled with an error type carrying the exception class and
message.  External collaborators (the Django template loader, the Python
eval builtin, and the elasticsearch-dsl field serialization) are abstracted
as an environment of functions.
-/

namespace Bungiesearch

/-- Models the Python exception classes raised by the code under study. -/
inductive Err where
  | keyError : String → Err
  | attributeError : String → Err
  | nameError : String → Err
  | notImplementedError : String → Err
  | valueError : String → Err
deriving Repr, DecidableEq

/-- Keeps the exception class but rewrites the message, as the re-raise
in the eval_as branch of AbstractField.get_object_value does. -/
def Err.mapMsg (g : String → String) : Err → Err
  | .keyError m => .keyError (g m)
  | .attributeError m => .attributeError (g m)
  | .nameError m => .nameError (g m)
  | .notImplementedError m => .notImplementedError (g m)
  | .valueError m => .valueError (g m)

/-- Models an elasticsearch-dsl Analyzer object: its serialized form
(to_dict) and its analysis definition (get_analysis_definition), a
two-level dictionary section name -> analyzer name -> opaque body. -/
structure AnalyzerObj where
  toDictVal : String
  analysisDefinition : Option (List (String × List (String × String)))
deriving Repr, DecidableEq

/-- Values stored in keyword arguments, option dictionaries and records. -/
inductive OptVal where
  | str : String → OptVal
  | num : Int → OptVal
  | pybool : Bool → OptVal
  | pynone : OptVal
  | analyzerObj : AnalyzerObj → OptVal
deriving Repr, DecidableEq

/-- First-match lookup in an association list, as Python dict lookup
(association lists built by dinsert keep keys unique). -/
def dlookup {β : Type} : List (String × β) → String → Option β
  | [], _ => none
  | p :: rest, k => if p.1 = k then some p.2 else dlookup rest k

/-- Replace the value of a pair when its key matches. -/
def repl {β : Type} (k : String) (v : β) (p : String × β) : String × β :=
  if p.1 = k then (k, v) else p

/-- Python dict assignment: replace in place if the key is present,
otherwise append, preserving insertion order. -/
def dinsert {β : Type} (d : List (String × β)) (k : String) (v : β) : List (String × β) :=
  if (dlookup d k).isSome then d.map (repl k v)
  else d ++ [(k, v)]

/-- Python dict.update: assign every pair of the second dict in order. -/
def dupdate {β : Type} (d e : List (String × β)) : List (String × β) :=
  e.foldl (fun acc p => dinsert acc p.1 p.2) d

/-- Key list of an association list. -/
def dkeys {β : Type} (d : List (String × β)) : List String := d.map Prod.fst

/-- Option fallback, written out to keep proofs in control of unfolding. -/
def oelse {α : Type} : Option α → Option α → Option α
  | some x, _ => some x
  | none, b => b

/-- The coretype class attribute of a field class: a single core type or a
list of admissible core types (NumberField). -/
inductive CoreType where
  | single : String → CoreType
  | multi : List String → CoreType

/-- Static data of a concrete AbstractField subclass: the coretype class
attribute, the allowed-option list (the fields class attribute; none models
the NestedField case where the fields property yields None), the defaults
dictionary, and whether a base_field_class exists for a resolved type. -/
structure FieldClass where
  coretype : CoreType
  allowedFields : Option (List String)
  defaults : List (String × OptVal)
  hasBaseFieldClass : String → Bool

/-- AbstractField.meta_fields. -/
def meta_fields : List String := ["_index", "_uid", "_type", "_id"]

/-- AbstractField.common_fields. -/
def common_fields : List String :=
  ["index_name", "store", "index", "boost", "null_value", "copy_to", "type", "fields"]

/-- The three analyzer option names scanned by ModelIndex.collect_analysis. -/
def analyzerOptionNames : List String := ["analyzer", "index_analyzer", "search_analyzer"]

/-- TextField class data. -/
def textFieldClass : FieldClass :=
  { coretype := .single "text",
    allowedFields := some ["analyzer", "boost", "eager_global_ordinals", "fielddata",
      "fielddata_frequency_filter", "fields", "index", "index_options",
      "norms", "position_increment_gap", "store", "search_analyzer",
      "search_quote_analyzer", "similarity", "term_vector"],
    defaults := [("analyzer", .str "snowball")],
    hasBaseFieldClass := fun _ => true }

/-- KeywordField class data. -/
def keywordFieldClass : FieldClass :=
  { coretype := .single "keyword",
    allowedFields := some ["boost", "doc_values", "eager_global_ordinals", "fields",
      "ignore_above", "index", "index_options", "norms", "null_value",
      "store", "similarity", "normalizer"],
    defaults := [],
    hasBaseFieldClass := fun _ => true }

/-- The NumberField core type list. -/
def numberCoretypes : List String := ["float", "double", "byte", "short", "integer", "long"]

/-- NumberField class data; the base field class exists exactly for the
types in the base-fields map, whose domain is the core type list. -/
def numberFieldClass : FieldClass :=
  { coretype := .multi numberCoretypes,
    allowedFields := some ["doc_values", "precision_step", "include_in_all",
      "ignore_malformed", "coerce"],
    defaults := [],
    hasBaseFieldClass := fun t => numberCoretypes.contains t }

/-- DateField class data. -/
def dateFieldClass : FieldClass :=
  { coretype := .single "date",
    allowedFields := some ["format", "doc_values", "precision_step", "include_in_all",
      "ignore_malformed"],
    defaults := [],
    hasBaseFieldClass := fun _ => true }

/-- BooleanField class data. -/
def booleanFieldClass : FieldClass :=
  { coretype := .single "boolean",
    allowedFields := some [],
    defaults := [],
    hasBaseFieldClass := fun _ => true }

/-- NestedField class data: the inherited fields property returns None
because base_field_class is set, so no option check applies. -/
def nestedFieldClass : FieldClass :=
  { coretype := .single "nested",
    allowedFields := none,
    defaults := [],
    hasBaseFieldClass := fun _ => true }

/-- A constructed field descriptor: the instance attributes set by
AbstractField.init (model_attr, eval_func, template_name, type, and the
remaining options), plus the class name for dispatch. -/
structure Field where
  clsName : String
  model_attr : Option String
  eval_func : Option String
  template_name : Option String
  type : String
  opts : List (String × OptVal)
deriving Repr, DecidableEq

/-- Python truthiness of an optional string attribute: absent (None) and
the empty string are falsy. -/
def truthyStr : Option String → Bool
  | none => false
  | some s => s ≠ ""

/-- The option-allowed check applies when base_field_class is falsy or the
fields attribute is not None (AbstractField.init line 83). -/
def optionCheckNeeded (fc : FieldClass) (ty : String) : Bool :=
  !(fc.hasBaseFieldClass ty) || fc.allowedFields.isSome

/-- The attribute loop of AbstractField.init: each remaining keyword
argument must be an allowed option or a common field, else KeyError. -/
def checkOptions (fc : FieldClass) (ty : String) : List (String × OptVal) → Except Err Unit
  | [] => .ok ()
  | (attr, _) :: rest =>
    if optionCheckNeeded fc ty then
      match fc.allowedFields with
      | none => .error (.notImplementedError "Allowed fields are not defined.")
      | some fs =>
        if !(fs.contains attr) && !(common_fields.contains attr) then
          .error (.keyError ("Attribute " ++ attr ++ " is not allowed for this core type."))
        else checkOptions fc ty rest
    else checkOptions fc ty rest

/-- Sets each keyword argument as an instance attribute, dict style. -/
def setOptions (base : List (String × OptVal)) (entries : List (String × OptVal)) :
    List (String × OptVal) :=
  entries.foldl (fun acc p => dinsert acc p.1 p.2) base

/-- The defaults loop of AbstractField.init: set a default only when the
attribute was not already set. -/
def applyDefaults (opts : List (String × OptVal)) (defaults : List (String × OptVal)) :
    List (String × OptVal) :=
  defaults.foldl (fun acc p => if (dlookup acc p.1).isSome then acc else dinsert acc p.1 p.2) opts

/-- AbstractField.init.  The keyword dictionary is split by destination:
model_attr, eval_as and template are popped first; coretypeArg is the
coretype keyword if passed (popped and validated only when the class
coretype is a list, otherwise left to flow into the option loop); others
holds every remaining keyword argument in order. -/
def fieldInit (fc : FieldClass) (clsName : String) (ma ev tp : Option String)
    (coretypeArg : Option OptVal) (others : List (String × OptVal)) : Except Err Field :=
  match fc.coretype with
  | .multi cts =>
    match coretypeArg with
    | none => .error (.keyError
        "This field can be represented as one of several types. Specify the coretype parameter.")
    | some v =>
      match v with
      | .str s =>
        if cts.contains s then
          (checkOptions fc s others).map (fun _ =>
            { clsName := clsName, model_attr := ma, eval_func := ev, template_name := tp,
              type := s, opts := applyDefaults (setOptions [] others) fc.defaults })
        else .error (.keyError "Core type is not supported by this field.")
      | _ => .error (.keyError "Core type is not supported by this field.")
  | .single s =>
    let allOthers := (coretypeArg.map (fun v => ("coretype", v))).toList ++ others
    (checkOptions fc s allOthers).map (fun _ =>
      { clsName := clsName, model_attr := ma, eval_func := ev, template_name := tp,
        type := s, opts := applyDefaults (setOptions [] allOthers) fc.defaults })

/-- A record attribute value on a model object: plain, or callable (the
call result is stored). -/
inductive RVal where
  | plain : OptVal → RVal
  | callable : OptVal → RVal
deriving Repr, DecidableEq

/-- A record handed to serialization: a mapping (dict) or a model object
with attributes. -/
inductive Record where
  | dict : List (String × OptVal) → Record
  | obj : List (String × RVal) → Record
deriving Repr, DecidableEq

/-- A base field of the external elasticsearch-dsl library, built from the
constructor keyword arguments the code passes. -/
structure BaseField where
  kwargs : List (String × OptVal)
deriving Repr, DecidableEq

/-- External collaborators: the Django template loader and renderer, the
Python eval builtin, tag stripping, and the elasticsearch-dsl base field
serialization and to_dict.  All are deterministic functions. -/
structure Env where
  render : String → Record → Except Err OptVal
  evalExpr : String → Record → Except Err OptVal
  striptags : OptVal → OptVal
  serializeBase : BaseField → OptVal → OptVal
  baseToDict : BaseField → List (String × OptVal)

/-- The message of the KeyError raised when no resolution strategy is
configured (AbstractField.get_object_value, final else branch). -/
def noStrategyMsg : String :=
  "Field gets its value via a model attribute, an eval function, a template, or is prepared in a method call but none of model_attr, eval_as, template, prepare is provided."

/-- AbstractField.get_object_value: template rendering if a template name
is truthy, else eval of the inline expression (re-raising with a rewritten
message), else model attribute or key lookup (calling the result when
callable), else KeyError. -/
def get_object_value (env : Env) (f : Field) (obj : Record) : Except Err OptVal :=
  if truthyStr f.template_name then
    env.render (f.template_name.getD "") obj
  else if truthyStr f.eval_func then
    match env.evalExpr (f.eval_func.getD "") obj with
    | .ok v => .ok v
    | .error e => .error (e.mapMsg (fun m => "Could not compute value of field: " ++ m))
  else if truthyStr f.model_attr then
    match obj with
    | .dict entries =>
      match dlookup entries (f.model_attr.getD "") with
      | some v => .ok v
      | none => .error (.keyError (f.model_attr.getD ""))
    | .obj attrs =>
      match dlookup attrs (f.model_attr.getD "") with
      | none => .error (.attributeError (f.model_attr.getD ""))
      | some (.callable r) => .ok r
      | some (.plain v) => .ok v
  else .error (.keyError noStrategyMsg)

/-- Registry of the concrete field classes, keyed by class name. -/
def classRegistry : List (String × FieldClass) :=
  [("TextField", textFieldClass), ("KeywordField", keywordFieldClass),
   ("NumberField", numberFieldClass), ("DateField", dateFieldClass),
   ("BooleanField", booleanFieldClass), ("NestedField", nestedFieldClass)]

/-- Whether the instance has a base field class (the cached base_field_class
property), a pure function of class and resolved type. -/
def fieldHasBase (f : Field) : Bool :=
  match dlookup classRegistry f.clsName with
  | some fc => fc.hasBaseFieldClass f.type
  | none => false

/-- Whether an option value is an elasticsearch-dsl Analyzer instance. -/
def isAnalyzerObjVal : OptVal → Bool
  | .analyzerObj _ => true
  | _ => false

/-- Analyzer.to_dict of the external library, carried on the object. -/
def analyzerToDict : OptVal → OptVal
  | .analyzerObj a => .str a.toDictVal
  | v => v

/-- AbstractField.dsl_field_kwargs: the instance dictionary minus the
system fields, so the type attribute followed by the options; analyzer
objects are serialized in place only when no base field class exists. -/
def dslFieldKwargs (hasBase : Bool) (f : Field) : List (String × OptVal) :=
  (("type", OptVal.str f.type) :: f.opts).map (fun p =>
    if !hasBase && analyzerOptionNames.contains p.1 && isAnalyzerObjVal p.2 then
      (p.1, analyzerToDict p.2)
    else p)

/-- AbstractField.get_base_field: build the external base field from the
dsl keyword arguments when a base field class exists. -/
def computeBase (f : Field) : Option BaseField :=
  if fieldHasBase f then some ⟨dslFieldKwargs true f⟩ else none

/-- Post-processing done by the TextField.value and KeywordField.value
overrides: strip tags unless the value is None. -/
def classPostprocess (env : Env) (clsName : String) (v : OptVal) : OptVal :=
  if clsName = "TextField" || clsName = "KeywordField" then
    match v with
    | .pynone => .pynone
    | w => env.striptags w
  else v

/-- AbstractField.value given the base field in hand: resolve the raw
value, then serialize through the base field when one exists. -/
def fieldValueCore (env : Env) (b : Option BaseField) (f : Field) (obj : Record) :
    Except Err OptVal :=
  match get_object_value env f obj with
  | .error e => .error e
  | .ok v =>
    match b with
    | some bf => .ok (env.serializeBase bf v)
    | none => .ok v

/-- The value method of a concrete field (AbstractField.value plus the
Text and Keyword overrides), with the base field computed afresh. -/
def fieldValue (env : Env) (f : Field) (obj : Record) : Except Err OptVal :=
  match fieldValueCore env (computeBase f) f obj with
  | .error e => .error e
  | .ok v => .ok (classPostprocess env f.clsName v)

/-- AbstractField.json: base_field.to_dict when a base field exists, else
the dsl keyword arguments. -/
def fieldJson (env : Env) (b : Option BaseField) (f : Field) : List (String × OptVal) :=
  match b with
  | some bf => env.baseToDict bf
  | none => dslFieldKwargs false f

/-- ModelIndex.get_mapping: the properties dictionary, keeping a field
when meta_fields is requested or its name is not a reserved meta field. -/
def get_mapping (env : Env) (flds : List (String × Field)) (metaFlag : Bool) :
    List (String × List (String × OptVal)) :=
  (flds.filter (fun p => metaFlag || !(meta_fields.contains p.1))).map
    (fun p => (p.1, fieldJson env (computeBase p.2) p.2))

/-- The value of one serialized attribute: the prepare override of the
index descriptor when present, else the value method of the field. -/
def computeEntryVal (env : Env) (prepare : String → Option (Record → Except Err OptVal))
    (obj : Record) (name : String) (f : Field) : Except Err OptVal :=
  match prepare name with
  | some p => p obj
  | none => fieldValue env f obj

/-- ModelIndex.serialize_object: walk the field dictionary, computing each
value via the prepare override or the field, aborting on the first error. -/
def serialize_object (env : Env) (prepare : String → Option (Record → Except Err OptVal))
    (flds : List (String × Field)) (obj : Record) : Except Err (List (String × OptVal)) :=
  match flds with
  | [] => .ok []
  | (name, f) :: rest =>
    match computeEntryVal env prepare obj name f with
    | .error e => .error e
    | .ok v =>
      match serialize_object env prepare rest obj with
      | .error e => .error e
      | .ok doc => .ok ((name, v) :: doc)

/-- The analyzer option values present on a field, in scan order. -/
def fieldAnalyzerVals (f : Field) : List OptVal :=
  analyzerOptionNames.filterMap (fun n => dlookup f.opts n)

/-- One step of ModelIndex.collect_analysis: analysis.setdefault(key,
empty).update(definition of key). -/
def applySection (an : List (String × List (String × String)))
    (p : String × List (String × String)) : List (String × List (String × String)) :=
  dinsert an p.1 (dupdate ((dlookup an p.1).getD []) p.2)

/-- Merge the analysis definition of one analyzer option value; plain
names and analyzers without a definition contribute nothing. -/
def applyAnalyzerVal (an : List (String × List (String × String))) (v : OptVal) :
    List (String × List (String × String)) :=
  match v with
  | .analyzerObj a =>
    match a.analysisDefinition with
    | none => an
    | some defn => defn.foldl applySection an
  | _ => an

/-- ModelIndex.collect_analysis over the field values of the index. -/
def collect_analysis (flds : List Field) : List (String × List (String × String)) :=
  flds.foldl (fun an f => (fieldAnalyzerVals f).foldl applyAnalyzerVal an) []

/-- The step of ModelIndexMeta.init that installs the id alias: fields
with key underscore-id bound to the field named by Meta.id_field, raising
KeyError when that field does not exist. -/
def buildIndexFields (flds : List (String × Field)) (id_field : String) :
    Except Err (List (String × Field)) :=
  match dlookup flds id_field with
  | none => .error (.keyError id_field)
  | some f => .ok (dinsert flds "_id" f)

/-- The Django internal types django_field_to_index maps explicitly. -/
def mappedDjangoTypes : List String :=
  ["DateField", "DateTimeField", "BooleanField", "NullBooleanField",
   "DecimalField", "FloatField", "PositiveSmallIntegerField", "SmallIntegerField",
   "IntegerField", "PositiveIntegerField", "AutoField", "BigIntegerField"]

/-- django_field_to_index.  The fallback line of the source returns
StringField(**attr), but no name StringField is defined or imported in the
module, so reaching it raises NameError; the fallback is embedded as that
error. -/
def django_field_to_index (djType : String) (ma ev tp : Option String)
    (others : List (String × OptVal)) : Except Err Field :=
  if djType ∈ ["DateField", "DateTimeField"] then
    fieldInit dateFieldClass "DateField" ma ev tp none others
  else if djType ∈ ["BooleanField", "NullBooleanField"] then
    fieldInit booleanFieldClass "BooleanField" ma ev tp none others
  else if djType ∈ ["DecimalField", "FloatField"] then
    fieldInit numberFieldClass "NumberField" ma ev tp (some (.str "float")) others
  else if djType ∈ ["PositiveSmallIntegerField", "SmallIntegerField"] then
    fieldInit numberFieldClass "NumberField" ma ev tp (some (.str "short")) others
  else if djType ∈ ["IntegerField", "PositiveIntegerField", "AutoField"] then
    fieldInit numberFieldClass "NumberField" ma ev tp (some (.str "integer")) others
  else if djType ∈ ["BigIntegerField"] then
    fieldInit numberFieldClass "NumberField" ma ev tp (some (.str "long")) others
  else .error (.nameError "name StringField is not defined")

/-!
Stateful layer: the cached_property base_field writes its value into the
instance dictionary on first access.  A field state is the immutable
constructed attributes plus that cache; descriptor operations thread the
state explicitly.
-/

/-- A field instance at runtime: constructed attributes plus the
cached_property slot for base_field (none while never accessed). -/
structure FieldState where
  fld : Field
  baseCache : Option (Option BaseField)
deriving Repr, DecidableEq

/-- A freshly constructed field instance. -/
def freshFS (f : Field) : FieldState := ⟨f, none⟩

/-- Reading the base_field cached_property: return the cache, or compute,
store and return. -/
def readBase (s : FieldState) : Option BaseField × FieldState :=
  match s.baseCache with
  | some b => (b, s)
  | none => (computeBase s.fld, ⟨s.fld, some (computeBase s.fld)⟩)

/-- A cache is either unfilled or holds exactly the computed base field. -/
def goodFS (s : FieldState) : Prop :=
  s.baseCache = none ∨ s.baseCache = some (computeBase s.fld)

/-- The stateful value method: resolve, serialize through the (cached)
base field, post-process per class. -/
def fieldValueSt (env : Env) (s : FieldState) (obj : Record) :
    Except Err OptVal × FieldState :=
  match fieldValueCore env (readBase s).1 s.fld obj with
  | .error e => (.error e, (readBase s).2)
  | .ok v => (.ok (classPostprocess env s.fld.clsName v), (readBase s).2)

/-- The stateful json method. -/
def jsonSt (env : Env) (s : FieldState) : List (String × OptVal) × FieldState :=
  (fieldJson env (readBase s).1 s.fld, (readBase s).2)

/-- An index descriptor state: its field dictionary with live instances. -/
abbrev IndexSt : Type := List (String × FieldState)

/-- Value resolution of the named field, threading its state. -/
def valueAt (env : Env) (name : String) (obj : Record) :
    IndexSt → Option (Except Err OptVal) × IndexSt
  | [] => (none, [])
  | p :: rest =>
    if p.1 = name then
      (some (fieldValueSt env p.2 obj).1, (p.1, (fieldValueSt env p.2 obj).2) :: rest)
    else
      ((valueAt env name obj rest).1, p :: (valueAt env name obj rest).2)

/-- Stateful ModelIndex.serialize_object: on an error the loop aborts and
the states touched so far keep their caches. -/
def serializeObjSt (env : Env) (prepare : String → Option (Record → Except Err OptVal))
    (obj : Record) : IndexSt → Except Err (List (String × OptVal)) × IndexSt
  | [] => (.ok [], [])
  | (name, fs) :: rest =>
    match prepare name with
    | some p =>
      match p obj with
      | .error e => (.error e, (name, fs) :: rest)
      | .ok v =>
        (match (serializeObjSt env prepare obj rest).1 with
         | .error e => .error e
         | .ok doc => .ok ((name, v) :: doc),
         (name, fs) :: (serializeObjSt env prepare obj rest).2)
    | none =>
      match (fieldValueSt env fs obj).1 with
      | .error e => (.error e, (name, (fieldValueSt env fs obj).2) :: rest)
      | .ok v =>
        (match (serializeObjSt env prepare obj rest).1 with
         | .error e => .error e
         | .ok doc => .ok ((name, v) :: doc),
         (name, (fieldValueSt env fs obj).2) :: (serializeObjSt env prepare obj rest).2)

/-- Stateful ModelIndex.get_mapping: the json of a field is computed only
when the field is kept by the meta filter. -/
def mappingSt (env : Env) (metaFlag : Bool) :
    IndexSt → List (String × List (String × OptVal)) × IndexSt
  | [] => ([], [])
  | (name, fs) :: rest =>
    if metaFlag || !(meta_fields.contains name) then
      ((name, (jsonSt env fs).1) :: (mappingSt env metaFlag rest).1,
       (name, (jsonSt env fs).2) :: (mappingSt env metaFlag rest).2)
    else
      ((mappingSt env metaFlag rest).1, (name, fs) :: (mappingSt env metaFlag rest).2)

/-- The observable operations of the descriptors after construction. -/
inductive DescOp where
  | getValue : String → Record → DescOp
  | serializeObj : Record → DescOp
  | mapping : Bool → DescOp
  | collectAnalysisOp : DescOp

/-- Decidable equality for Except results so witnesses can evaluate. -/
instance {ε α : Type} [DecidableEq ε] [DecidableEq α] : DecidableEq (Except ε α) := fun a b =>
  match a, b with
  | .ok x, .ok y =>
    if h : x = y then .isTrue (congrArg Except.ok h)
    else .isFalse (fun c => h (Except.ok.inj c))
  | .ok _, .error _ => .isFalse (fun c => Except.noConfusion c)
  | .error _, .ok _ => .isFalse (fun c => Except.noConfusion c)
  | .error e, .error f =>
    if h : e = f then .isTrue (congrArg Except.error h)
    else .isFalse (fun c => h (Except.error.inj c))

/-- Results of descriptor operations. -/
inductive Res where
  | val : Option (Except Err OptVal) → Res
  | doc : Except Err (List (String × OptVal)) → Res
  | mapRes : List (String × List (String × OptVal)) → Res
  | analysis : List (String × List (String × String)) → Res
deriving Repr, DecidableEq

/-- Run one descriptor operation against the index state. -/
def runOp (env : Env) (prepare : String → Option (Record → Except Err OptVal)) :
    DescOp → IndexSt → Res × IndexSt
  | .getValue name obj, st =>
    (.val (valueAt env name obj st).1, (valueAt env name obj st).2)
  | .serializeObj obj, st =>
    (.doc (serializeObjSt env prepare obj st).1, (serializeObjSt env prepare obj st).2)
  | .mapping b, st =>
    (.mapRes (mappingSt env b st).1, (mappingSt env b st).2)
  | .collectAnalysisOp, st =>
    (.analysis (collect_analysis (st.map (fun p => p.2.fld))), st)

/-- Run a sequence of descriptor operations, collecting each result. -/
def runOps (env : Env) (prepare : String → Option (Record → Except Err OptVal)) :
    List DescOp → IndexSt → List Res × IndexSt
  | [], st => ([], st)
  | op :: ops, st =>
    ((runOp env prepare op st).1
       :: (runOps env prepare ops (runOp env prepare op st).2).1,
     (runOps env prepare ops (runOp env prepare op st).2).2)

/-- The field dictionary an index state carries. -/
def stFields (st : IndexSt) : List (String × Field) :=
  st.map (fun p => (p.1, p.2.fld))

/-- The index state right after construction: every cache unfilled. -/
def freshIdx (flds : List (String × Field)) : IndexSt :=
  flds.map (fun p => (p.1, freshFS p.2))

/-!
Specification-side definitions, written from the words of the spec, to be
compared with the code-side definitions above.
-/

/-- The three value-resolution strategies. -/
inductive Strategy where
  | template : Strategy
  | evalExpr : Strategy
  | modelAttr : Strategy
deriving Repr, DecidableEq

/-- The strategies configured on a field, in the fixed priority order the
spec states: template, then inline expression, then attribute lookup. -/
def configuredStrategies (f : Field) : List Strategy :=
  (if truthyStr f.template_name then [Strategy.template] else []) ++
  (if truthyStr f.eval_func then [Strategy.evalExpr] else []) ++
  (if truthyStr f.model_attr then [Strategy.modelAttr] else [])

/-- Run one strategy of the spec: render the template, evaluate the
expression, or look the attribute up (invoking a callable). -/
def runStrategy (env : Env) (f : Field) (obj : Record) : Strategy → Except Err OptVal
  | .template => env.render (f.template_name.getD "") obj
  | .evalExpr =>
    match env.evalExpr (f.eval_func.getD "") obj with
    | .ok v => .ok v
    | .error e => .error (e.mapMsg (fun m => "Could not compute value of field: " ++ m))
  | .modelAttr =>
    match obj with
    | .dict entries =>
      match dlookup entries (f.model_attr.getD "") with
      | some v => .ok v
      | none => .error (.keyError (f.model_attr.getD ""))
    | .obj attrs =>
      match dlookup attrs (f.model_attr.getD "") with
      | none => .error (.attributeError (f.model_attr.getD ""))
      | some (.callable r) => .ok r
      | some (.plain v) => .ok v

/-- Modelled from the spec: value resolution tries the configured
strategies in the fixed order and raises an error when none is
configured. -/
def specValueResolution (env : Env) (f : Field) (obj : Record) : Except Err OptVal :=
  match configuredStrategies f with
  | [] => .error (.keyError noStrategyMsg)
  | s :: _ => runStrategy env f obj s

/-- How many resolution strategies are configured (truthy) on a field. -/
def strategyCount (f : Field) : Nat :=
  (if truthyStr f.template_name then 1 else 0) +
  (if truthyStr f.eval_func then 1 else 0) +
  (if truthyStr f.model_attr then 1 else 0)

/-- A record is well formed for a field when every strategy the field
configures can succeed on it: the template renders, the expression
evaluates, and the looked-up attribute or key is present. -/
def wellFormedFor (env : Env) (f : Field) (obj : Record) : Prop :=
  (truthyStr f.template_name → (env.render (f.template_name.getD "") obj).isOk) ∧
  (truthyStr f.eval_func → (env.evalExpr (f.eval_func.getD "") obj).isOk) ∧
  (truthyStr f.model_attr →
    match obj with
    | .dict entries => (dlookup entries (f.model_attr.getD "")).isSome
    | .obj attrs => (dlookup attrs (f.model_attr.getD "")).isSome)

/-- The result of one descriptor operation computed purely from the field
dictionary, ignoring caches. -/
def opSpec (env : Env) (prepare : String → Option (Record → Except Err OptVal))
    (flds : List (String × Field)) : DescOp → Res
  | .getValue name obj => .val ((dlookup flds name).map (fun f => fieldValue env f obj))
  | .serializeObj obj => .doc (serialize_object env prepare flds obj)
  | .mapping b => .mapRes (get_mapping env flds b)
  | .collectAnalysisOp => .analysis (collect_analysis (flds.map Prod.snd))

/-- Every field instance of an index state has a sound cache. -/
def goodIdx (st : IndexSt) : Prop := ∀ p ∈ st, goodFS p.2

/-- Two-level dictionary lookup into an analysis dictionary. -/
def lookup2 (an : List (String × List (String × String))) (k1 k2 : String) : Option String :=
  match dlookup an k1 with
  | none => none
  | some sec => dlookup sec k2

/-- The last value a list of section updates writes at a given section
name and analyzer name, later updates taking priority. -/
def sectionWrite (σ : List (String × List (String × String))) (k1 k2 : String) : Option String :=
  σ.foldl (fun acc p => if p.1 = k1 then oelse (dlookup p.2.reverse k2) acc else acc) none

/-- The analysis-definition sections carried by one analyzer option value. -/
def secsOf : OptVal → List (String × List (String × String))
  | .analyzerObj a => a.analysisDefinition.getD []
  | _ => []

/-- All sections the analyzers of a field contribute, in scan order. -/
def fieldSectionOps (f : Field) : List (String × List (String × String)) :=
  (fieldAnalyzerVals f).flatMap secsOf

/-- A deterministic environment with trivial collaborators, for witnesses. -/
def trivEnv : Env :=
  { render := fun _ _ => .ok (.str "rendered"),
    evalExpr := fun _ _ => .ok (.str "evaluated"),
    striptags := fun v => v,
    serializeBase := fun _ v => v,
    baseToDict := fun b => b.kwargs }

/-- An index descriptor with no prepare overrides, for witnesses. -/
def noPrepare : String → Option (Record → Except Err OptVal) := fun _ => none

/-- A boolean field resolving through a model attribute, for witnesses. -/
def sampleAttrField : Field :=
  { clsName := "BooleanField", model_attr := some "flag", eval_func := none,
    template_name := none, type := "boolean", opts := [] }

/-- A concrete analyzer object with a two-section definition. -/
def sampleAnalyzer : AnalyzerObj :=
  { toDictVal := "custom_analyzer",
    analysisDefinition := some
      [("analyzer", [("custom_analyzer", "body")]), ("filter", [("custom_filter", "fbody")])] }

/-- A text field referencing the sample analyzer object. -/
def sampleAnalyzerField : Field :=
  { clsName := "TextField", model_attr := some "body", eval_func := none,
    template_name := none, type := "text",
    opts := [("analyzer", .analyzerObj sampleAnalyzer)] }

/-- A text field whose analyzer option is a plain name. -/
def samplePlainField : Field :=
  { clsName := "TextField", model_attr := some "title", eval_func := none,
    template_name := none, type := "text",
    opts := [("analyzer", .str "snowball")] }


/-- Well-formedness of an analysis dictionary: unique section names and,
inside each section, unique analyzer names. -/
def secInv (an : List (String × List (String × String))) : Prop :=
  (dkeys an).Nodup ∧ ∀ p ∈ an, (dkeys p.2).Nodup

/-!
Lemmas about the dictionary model.
-/

theorem oelse_none_right {α : Type} (a : Option α) : oelse a none = a := by
  cases a <;> rfl

theorem oelse_assoc {α : Type} (a b c : Option α) :
    oelse (oelse a b) c = oelse a (oelse b c) := by
  cases a <;> rfl

theorem oelse_self_left {α : Type} (a b : Option α) : oelse a (oelse a b) = oelse a b := by
  cases a <;> rfl

theorem dlookup_append {β : Type} (a b : List (String × β)) (k : String) :
    dlookup (a ++ b) k = oelse (dlookup a k) (dlookup b k) := by
  induction a with
  | nil => rfl
  | cons p rest ih =>
    by_cases h : p.1 = k
    · simp [dlookup, h, oelse]
    · simp [dlookup, h, ih]

theorem dlookup_eq_none_iff {β : Type} (d : List (String × β)) (k : String) :
    dlookup d k = none ↔ k ∉ dkeys d := by
  induction d with
  | nil => simp [dlookup, dkeys]
  | cons p rest ih =>
    by_cases h : p.1 = k
    · simp [dlookup, dkeys, h]
    · simp [dlookup, dkeys, h, ih]
      intro hk
      exact fun c => h c.symm

theorem dlookup_mem {β : Type} {d : List (String × β)} {k : String} {v : β}
    (h : dlookup d k = some v) : (k, v) ∈ d := by
  induction d with
  | nil => simp [dlookup] at h
  | cons p rest ih =>
    by_cases hk : p.1 = k
    · rw [dlookup, if_pos hk] at h
      cases p with
      | mk a b =>
        simp at hk h
        subst hk
        subst h
        exact List.mem_cons_self _ _
    · rw [dlookup, if_neg hk] at h
      exact List.mem_cons_of_mem _ (ih h)

theorem dlookup_map_repl {β : Type} (d : List (String × β)) (k k1 : String) (v : β) :
    dlookup (d.map (repl k v)) k1 =
      if k1 = k then (dlookup d k).map (fun _ => v) else dlookup d k1 := by
  induction d with
  | nil => by_cases h : k1 = k <;> simp [dlookup, h]
  | cons p rest ih =>
    by_cases hp : p.1 = k
    · by_cases h1 : k1 = k
      · subst h1
        simp [repl, hp, dlookup, ih]
      · have hk1 : ¬k = k1 := fun c => h1 c.symm
        have hp1 : ¬p.1 = k1 := fun c => h1 (c.symm.trans hp)
        simp [repl, hp, dlookup, hk1, hp1, ih, h1]
    · by_cases h1 : p.1 = k1
      · simp [repl, hp, dlookup, h1, if_neg (fun c : k1 = k => hp (h1.trans c))]
      · simp [repl, hp, dlookup, h1, ih]

theorem dlookup_dinsert_self {β : Type} (d : List (String × β)) (k : String) (v : β) :
    dlookup (dinsert d k v) k = some v := by
  unfold dinsert
  by_cases h : (dlookup d k).isSome
  · rw [if_pos h, dlookup_map_repl, if_pos rfl]
    cases hd : dlookup d k
    · rw [hd] at h; simp at h
    · simp
  · rw [if_neg h, dlookup_append]
    have hn : dlookup d k = none := by
      cases hd : dlookup d k
      · rfl
      · rw [hd] at h; simp at h
    simp [hn, oelse, dlookup]

theorem dlookup_dinsert_other {β : Type} (d : List (String × β)) (k k1 : String) (v : β)
    (h : k1 ≠ k) : dlookup (dinsert d k v) k1 = dlookup d k1 := by
  unfold dinsert
  by_cases hs : (dlookup d k).isSome
  · rw [if_pos hs, dlookup_map_repl, if_neg h]
  · rw [if_neg hs, dlookup_append]
    have hk1 : ¬k = k1 := fun c => h c.symm
    have : dlookup [(k, v)] k1 = none := by simp [dlookup, hk1]
    rw [this, oelse_none_right]

theorem dkeys_map_repl {β : Type} (d : List (String × β)) (k : String) (v : β) :
    dkeys (d.map (repl k v)) = dkeys d := by
  induction d with
  | nil => rfl
  | cons p rest ih =>
    have hfst : (repl k v p).1 = p.1 := by
      unfold repl
      by_cases hp : p.1 = k
      · rw [if_pos hp, hp]
      · rw [if_neg hp]
    simp [dkeys] at ih ⊢
    exact ⟨hfst, ih⟩

theorem dkeys_dinsert {β : Type} (d : List (String × β)) (k : String) (v : β) :
    dkeys (dinsert d k v) = if (dlookup d k).isSome then dkeys d else dkeys d ++ [k] := by
  unfold dinsert
  by_cases h : (dlookup d k).isSome
  · rw [if_pos h, if_pos h, dkeys_map_repl]
  · rw [if_neg h, if_neg h]
    simp [dkeys]

theorem nodup_dkeys_dinsert {β : Type} (d : List (String × β)) (k : String) (v : β)
    (h : (dkeys d).Nodup) : (dkeys (dinsert d k v)).Nodup := by
  rw [dkeys_dinsert]
  by_cases hs : (dlookup d k).isSome
  · rw [if_pos hs]; exact h
  · rw [if_neg hs]
    have hn : dlookup d k = none := by
      cases hd : dlookup d k
      · rfl
      · rw [hd] at hs; simp at hs
    have hk : k ∉ dkeys d := (dlookup_eq_none_iff d k).mp hn
    simp [List.nodup_append, h, hk]

theorem mem_dinsert {β : Type} {d : List (String × β)} {k : String} {v : β} {q : String × β}
    (h : q ∈ dinsert d k v) : q ∈ d ∨ q = (k, v) := by
  unfold dinsert at h
  by_cases hs : (dlookup d k).isSome
  · rw [if_pos hs] at h
    rcases List.mem_map.mp h with ⟨p, hp, hq⟩
    unfold repl at hq
    by_cases hpk : p.1 = k
    · right; rw [if_pos hpk] at hq; exact hq.symm
    · left; rw [if_neg hpk] at hq; exact hq ▸ hp
  · rw [if_neg hs] at h
    rcases List.mem_append.mp h with h1 | h1
    · exact Or.inl h1
    · right
      simpa using h1

/-!
Claim theorems: value resolution order, construction strategy checks,
and the django type translation fallback.
-/

/-- Claim C2: value resolution tries the strategies in the fixed order
template rendering, then inline expression evaluation, then attribute or
key lookup (invoking a callable), and raises an error when none is
configured: the code-side get_object_value coincides with the
specification-side resolution over the configured strategy list. -/
theorem C2_resolution_order (env : Env) (f : Field) (obj : Record) :
    get_object_value env f obj = specValueResolution env f obj := by
  cases h1 : truthyStr f.template_name <;> cases h2 : truthyStr f.eval_func <;>
    cases h3 : truthyStr f.model_attr <;>
      simp [get_object_value, specValueResolution, configuredStrategies, runStrategy, h1, h2, h3]

/-- Claim C1 is refuted: constructing a field descriptor with zero
value-resolution strategies succeeds; no error is raised at construction
time. -/
theorem C1_counterexample :
    (fieldInit booleanFieldClass "BooleanField" none none none none []).isOk = true := by
  rfl

/-- Claim C1, amended: field construction performs no check on the number
of configured value-resolution strategies; a descriptor is produced for
any combination of model_attr, eval_as and template, and the
zero-strategy error is raised only at value-resolution time. -/
theorem C1_amended_no_construction_check :
    (∀ ma ev tp : Option String,
       (fieldInit booleanFieldClass "BooleanField" ma ev tp none []).isOk = true) ∧
    (∀ (env : Env) (f : Field) (obj : Record), strategyCount f = 0 →
       get_object_value env f obj = .error (.keyError noStrategyMsg)) := by
  constructor
  · intro ma ev tp
    rfl
  · intro env f obj h
    unfold strategyCount at h
    have h1 : truthyStr f.template_name = false := by
      cases hx : truthyStr f.template_name
      · rfl
      · rw [hx] at h; simp at h
    have h2 : truthyStr f.eval_func = false := by
      cases hx : truthyStr f.eval_func
      · rfl
      · rw [hx] at h; simp at h
    have h3 : truthyStr f.model_attr = false := by
      cases hx : truthyStr f.model_attr
      · rfl
      · rw [hx] at h; simp at h
    simp [get_object_value, h1, h2, h3]

/-- Witness for the amended C1: a descriptor is produced with all three
strategies set at once, and a zero-strategy field fails at resolution. -/
theorem C1_amended_witness :
    (fieldInit booleanFieldClass "BooleanField" (some "id") (some "obj.id")
       (some "tpl.txt") none []).isOk = true ∧
    get_object_value trivEnv
      { clsName := "BooleanField", model_attr := none, eval_func := none,
        template_name := none, type := "boolean", opts := [] }
      (Record.dict []) = .error (.keyError noStrategyMsg) :=
  ⟨C1_amended_no_construction_check.1 (some "id") (some "obj.id") (some "tpl.txt"),
   C1_amended_no_construction_check.2 trivEnv _ (Record.dict []) (by decide)⟩

/-- Claim C9: for a Django internal type outside the explicitly mapped
families, django_field_to_index reaches the fallback that references the
undefined name StringField and therefore raises NameError; no descriptor
is returned. -/
theorem C9_unmapped_django_nameerror (djType : String) (ma ev tp : Option String)
    (others : List (String × OptVal)) (h : djType ∉ mappedDjangoTypes) :
    django_field_to_index djType ma ev tp others
      = .error (.nameError "name StringField is not defined") := by
  simp [mappedDjangoTypes] at h
  obtain ⟨n1, n2, n3, n4, n5, n6, n7, n8, n9, n10, n11, n12⟩ := h
  simp [django_field_to_index, n1, n2, n3, n4, n5, n6, n7, n8, n9, n10, n11, n12]

/-- Witness for C9: the common string column types CharField and
TextField always fail with NameError. -/
theorem C9_witness :
    django_field_to_index "CharField" (some "title") none none []
        = .error (.nameError "name StringField is not defined") ∧
    django_field_to_index "TextField" (some "body") none none []
        = .error (.nameError "name StringField is not defined") :=
  ⟨C9_unmapped_django_nameerror "CharField" (some "title") none none [] (by decide),
   C9_unmapped_django_nameerror "TextField" (some "body") none none [] (by decide)⟩

/-- When the allowed-field list exists, the option check is needed. -/
theorem optionCheckNeeded_of_some (fc : FieldClass) (ty : String) (fs : List String)
    (hfs : fc.allowedFields = some fs) : optionCheckNeeded fc ty = true := by
  unfold optionCheckNeeded
  rw [hfs]
  simp

/-- Unfolding equation for the option loop on a cons cell. -/
theorem checkOptions_cons (fc : FieldClass) (ty attr : String) (v : OptVal)
    (rest : List (String × OptVal)) :
    checkOptions fc ty ((attr, v) :: rest)
      = if optionCheckNeeded fc ty then
          match fc.allowedFields with
          | none => .error (.notImplementedError "Allowed fields are not defined.")
          | some fs =>
            if !(fs.contains attr) && !(common_fields.contains attr) then
              .error (.keyError ("Attribute " ++ attr ++ " is not allowed for this core type."))
            else checkOptions fc ty rest
        else checkOptions fc ty rest := rfl

/-- The option loop raises KeyError at a head argument that fails both
membership tests. -/
theorem checkOptions_cons_err (fc : FieldClass) (ty attr : String) (v : OptVal)
    (rest : List (String × OptVal)) (fs : List String) (hfs : fc.allowedFields = some fs)
    (hc : (!(fs.contains attr) && !(common_fields.contains attr)) = true) :
    checkOptions fc ty ((attr, v) :: rest)
      = .error (.keyError ("Attribute " ++ attr ++ " is not allowed for this core type.")) := by
  rw [checkOptions_cons, optionCheckNeeded_of_some fc ty fs hfs, hfs]
  show (if !(fs.contains attr) && !(common_fields.contains attr) then
          Except.error (Err.keyError ("Attribute " ++ attr ++ " is not allowed for this core type."))
        else checkOptions fc ty rest)
      = Except.error (Err.keyError ("Attribute " ++ attr ++ " is not allowed for this core type."))
  rw [hc]
  rfl

/-- The option loop passes over a head argument that is allowed. -/
theorem checkOptions_cons_pass (fc : FieldClass) (ty attr : String) (v : OptVal)
    (rest : List (String × OptVal)) (fs : List String) (hfs : fc.allowedFields = some fs)
    (hc : (!(fs.contains attr) && !(common_fields.contains attr)) = false) :
    checkOptions fc ty ((attr, v) :: rest) = checkOptions fc ty rest := by
  rw [checkOptions_cons, optionCheckNeeded_of_some fc ty fs hfs, hfs]
  show (if !(fs.contains attr) && !(common_fields.contains attr) then
          Except.error (Err.keyError ("Attribute " ++ attr ++ " is not allowed for this core type."))
        else checkOptions fc ty rest)
      = checkOptions fc ty rest
  rw [hc]
  rfl

/-- If some remaining keyword argument is neither an allowed option nor a
common field, the option loop raises KeyError. -/
theorem checkOptions_error (fc : FieldClass) (ty : String) (fs : List String)
    (hfs : fc.allowedFields = some fs) (entries : List (String × OptVal))
    (hbad : ∃ q ∈ entries, fs.contains q.1 = false ∧ common_fields.contains q.1 = false) :
    ∃ m, checkOptions fc ty entries = .error (.keyError m) := by
  induction entries with
  | nil =>
    rcases hbad with ⟨q, hq, _⟩
    cases hq
  | cons p rest ih =>
    obtain ⟨attr, v⟩ := p
    rcases hbad with ⟨q, hq, hq1, hq2⟩
    by_cases hc : (!(fs.contains attr) && !(common_fields.contains attr)) = true
    · exact ⟨"Attribute " ++ attr ++ " is not allowed for this core type.",
        checkOptions_cons_err fc ty attr v rest fs hfs hc⟩
    · have hc2 : (!(fs.contains attr) && !(common_fields.contains attr)) = false :=
        Bool.eq_false_iff.mpr hc
      have hstep := checkOptions_cons_pass fc ty attr v rest fs hfs hc2
      rcases List.mem_cons.mp hq with h | h
      · exfalso
        apply hc
        rw [h] at hq1 hq2
        simp only [hq1, hq2] at *
        rfl
      · rcases ih ⟨q, h, hq1, hq2⟩ with ⟨m, hm⟩
        exact ⟨m, hstep ▸ hm⟩

/-- Claim C6: construction raises a descriptive KeyError when the field
type admits several core types and no coretype argument is given, when a
coretype outside the admitted list is given, and when an option argument
is neither among the allowed options nor among the common options; in
each case no descriptor is produced. -/
theorem C6_construction_errors :
    (∀ (fc : FieldClass) (cn : String) (ma ev tp : Option String)
        (others : List (String × OptVal)) (cts : List String),
        fc.coretype = .multi cts →
        ∃ m, fieldInit fc cn ma ev tp none others = .error (.keyError m)) ∧
    (∀ (fc : FieldClass) (cn : String) (ma ev tp : Option String)
        (others : List (String × OptVal)) (cts : List String) (s : String),
        fc.coretype = .multi cts → cts.contains s = false →
        ∃ m, fieldInit fc cn ma ev tp (some (.str s)) others = .error (.keyError m)) ∧
    (∀ (fc : FieldClass) (cn : String) (ma ev tp : Option String)
        (others : List (String × OptVal)) (ty : String) (fs : List String)
        (q : String × OptVal),
        fc.coretype = .single ty → fc.allowedFields = some fs → q ∈ others →
        fs.contains q.1 = false → common_fields.contains q.1 = false →
        ∃ m, fieldInit fc cn ma ev tp none others = .error (.keyError m)) ∧
    (∀ (fc : FieldClass) (cn : String) (ma ev tp : Option String)
        (others : List (String × OptVal)) (cts : List String) (s : String)
        (fs : List String) (q : String × OptVal),
        fc.coretype = .multi cts → cts.contains s = true →
        fc.allowedFields = some fs → q ∈ others →
        fs.contains q.1 = false → common_fields.contains q.1 = false →
        ∃ m, fieldInit fc cn ma ev tp (some (.str s)) others = .error (.keyError m)) := by
  refine ⟨?_, ?_, ?_, ?_⟩
  · intro fc cn ma ev tp others cts hcore
    exact ⟨"This field can be represented as one of several types. Specify the coretype parameter.",
      by simp [fieldInit, hcore]⟩
  · intro fc cn ma ev tp others cts s hcore hbad
    have hbad2 : s ∉ cts := by simpa using hbad
    exact ⟨"Core type is not supported by this field.", by simp [fieldInit, hcore, hbad2]⟩
  · intro fc cn ma ev tp others ty fs q hcore hfs hq hq1 hq2
    rcases checkOptions_error fc ty fs hfs others ⟨q, hq, hq1, hq2⟩ with ⟨m, hm⟩
    refine ⟨m, ?_⟩
    simp [fieldInit, hcore, hm, Except.map]
  · intro fc cn ma ev tp others cts s fs q hcore hgood hfs hq hq1 hq2
    rcases checkOptions_error fc s fs hfs others ⟨q, hq, hq1, hq2⟩ with ⟨m, hm⟩
    refine ⟨m, ?_⟩
    have hmem : s ∈ cts := by simpa using hgood
    simp [fieldInit, hcore, hgood, hm, Except.map, hmem]

/-- Witness for C6: a NumberField without a coretype, a NumberField with
an unsupported coretype, a TextField with an unknown option and a
NumberField with an unknown option all fail to construct. -/
theorem C6_witness :
    (fieldInit numberFieldClass "NumberField" (some "price") none none none []).isOk = false ∧
    (fieldInit numberFieldClass "NumberField" (some "price") none none
        (some (.str "decimal")) []).isOk = false ∧
    (fieldInit textFieldClass "TextField" (some "title") none none none
        [("coerce", .pybool true)]).isOk = false ∧
    (fieldInit numberFieldClass "NumberField" (some "price") none none
        (some (.str "float")) [("analyzer", .str "snowball")]).isOk = false := by
  obtain ⟨m1, h1⟩ := C6_construction_errors.1 numberFieldClass "NumberField"
    (some "price") none none [] numberCoretypes rfl
  obtain ⟨m2, h2⟩ := C6_construction_errors.2.1 numberFieldClass "NumberField"
    (some "price") none none [] numberCoretypes "decimal" rfl (by decide)
  obtain ⟨m3, h3⟩ := C6_construction_errors.2.2.1 textFieldClass "TextField"
    (some "title") none none [("coerce", .pybool true)] "text"
    ((textFieldClass.allowedFields).getD []) ("coerce", .pybool true) rfl rfl
    (by decide) (by decide) (by decide)
  obtain ⟨m4, h4⟩ := C6_construction_errors.2.2.2 numberFieldClass "NumberField"
    (some "price") none none [("analyzer", .str "snowball")] numberCoretypes "float"
    ((numberFieldClass.allowedFields).getD []) ("analyzer", .str "snowball") rfl
    (by decide) rfl (by decide) (by decide) (by decide)
  refine ⟨?_, ?_, ?_, ?_⟩
  · rw [h1]; rfl
  · rw [h2]; rfl
  · rw [h3]; rfl
  · rw [h4]; rfl

/-- Claim C8: a field descriptor with exactly one resolution strategy
configured resolves without error on a well-formed record; in particular
the no-strategy error branch is not reached. -/
theorem C8_one_strategy_resolves (env : Env) (f : Field) (obj : Record)
    (h1 : strategyCount f = 1) (h2 : wellFormedFor env f obj) :
    (get_object_value env f obj).isOk = true := by
  obtain ⟨w1, w2, w3⟩ := h2
  cases ht : truthyStr f.template_name
  · cases he : truthyStr f.eval_func
    · cases hm : truthyStr f.model_attr
      · unfold strategyCount at h1
        rw [ht, he, hm] at h1
        simp at h1
      · have hl := w3 hm
        cases obj with
        | dict entries =>
          simp only [get_object_value, ht, he, hm] at *
          simp only [Bool.false_eq_true, if_false, if_true]
          cases hd : dlookup entries (f.model_attr.getD "")
          · rw [hd] at hl; simp at hl
          · simp [hd, Except.isOk, Except.toBool]
        | obj attrs =>
          simp only [get_object_value, ht, he, hm] at *
          simp only [Bool.false_eq_true, if_false, if_true]
          cases hd : dlookup attrs (f.model_attr.getD "")
          · rw [hd] at hl; simp at hl
          · rename_i rv
            cases rv <;> simp [hd, Except.isOk, Except.toBool]
    · have hev := w2 he
      simp only [get_object_value, ht, he, Bool.false_eq_true, if_false, if_true]
      cases hd : env.evalExpr (f.eval_func.getD "") obj
      · rw [hd] at hev; simp [Except.isOk, Except.toBool] at hev
      · simp [hd, Except.isOk, Except.toBool]
  · have hr := w1 ht
    simpa [get_object_value, ht] using hr

/-- Witness for C8: a boolean field with only model_attr configured
resolves on an object record carrying that attribute. -/
theorem C8_witness :
    (get_object_value trivEnv sampleAttrField
        (Record.obj [("flag", RVal.plain (OptVal.pybool true))])).isOk = true :=
  C8_one_strategy_resolves trivEnv sampleAttrField
    (Record.obj [("flag", RVal.plain (OptVal.pybool true))]) (by decide)
    ⟨fun h => Bool.noConfusion h, fun h => Bool.noConfusion h, fun _ => rfl⟩

/-- Unfolding of get_mapping on a cons cell. -/
theorem get_mapping_cons (env : Env) (q : String × Field) (rest : List (String × Field))
    (b : Bool) :
    get_mapping env (q :: rest) b =
      if b || !(meta_fields.contains q.1) then
        (q.1, fieldJson env (computeBase q.2) q.2) :: get_mapping env rest b
      else get_mapping env rest b := by
  unfold get_mapping
  rw [List.filter_cons]
  by_cases h : (b || !(meta_fields.contains q.1)) = true
  · rw [if_pos h, if_pos h]
    rfl
  · rw [if_neg h, if_neg h]

/-- Claim C4: mapping generation without meta fields yields exactly the
entries of the full mapping whose names are not reserved meta fields; the
full mapping has an entry for every field of the index; and no reserved
meta field name survives the exclusion. -/
theorem C4_mapping_meta (env : Env) (flds : List (String × Field)) :
    get_mapping env flds false
        = (get_mapping env flds true).filter (fun p => !(meta_fields.contains p.1)) ∧
    dkeys (get_mapping env flds true) = dkeys flds ∧
    (∀ p ∈ get_mapping env flds false, meta_fields.contains p.1 = false) := by
  refine ⟨?_, ?_, ?_⟩
  · induction flds with
    | nil => rfl
    | cons q rest ih =>
      cases hq : meta_fields.contains q.1
      · have hq2 : q.1 ∉ meta_fields := by simpa using hq
        simp [get_mapping_cons, List.filter_cons, hq, hq2, ih]
      · have hq2 : q.1 ∈ meta_fields := by simpa using hq
        simp [get_mapping_cons, List.filter_cons, hq, hq2, ih]
  · induction flds with
    | nil => rfl
    | cons q rest ih =>
      rw [get_mapping_cons]
      simp [dkeys] at ih ⊢
      exact ih
  · induction flds with
    | nil => intro p hp; cases hp
    | cons q rest ih =>
      intro p hp
      rw [get_mapping_cons] at hp
      cases hq : meta_fields.contains q.1
      · have hq2 : q.1 ∉ meta_fields := by simpa using hq
        simp [hq, hq2] at hp
        rcases hp with h | h
        · rw [h]
          exact hq
        · exact ih p h
      · have hq2 : q.1 ∈ meta_fields := by simpa using hq
        simp [hq, hq2] at hp
        exact ih p hp

/-- Witness for C4: a two-field index with an id field and its meta alias;
the exclusion drops exactly the meta entry. -/
theorem C4_witness :
    get_mapping trivEnv [("id", sampleAttrField), ("_id", sampleAttrField)] false
        = (get_mapping trivEnv [("id", sampleAttrField), ("_id", sampleAttrField)] true).filter
            (fun p => !(meta_fields.contains p.1)) ∧
    meta_fields.contains "id" = false :=
  ⟨(C4_mapping_meta trivEnv [("id", sampleAttrField), ("_id", sampleAttrField)]).1,
   (C4_mapping_meta trivEnv [("id", sampleAttrField), ("_id", sampleAttrField)]).2.2
     ("id", fieldJson trivEnv (computeBase sampleAttrField) sampleAttrField) (by decide)⟩

/-- Structure of a successful serialization: entry by entry, the name is
the field name and the value comes from the prepare override or the field. -/
theorem serialize_object_forall2 (env : Env)
    (prepare : String → Option (Record → Except Err OptVal))
    (flds : List (String × Field)) (obj : Record) (doc : List (String × OptVal))
    (h : serialize_object env prepare flds obj = .ok doc) :
    List.Forall₂ (fun (p : String × Field) (q : String × OptVal) =>
      q.1 = p.1 ∧ computeEntryVal env prepare obj p.1 p.2 = .ok q.2) flds doc := by
  induction flds generalizing doc with
  | nil =>
    simp only [serialize_object] at h
    cases h
    exact List.Forall₂.nil
  | cons p rest ih =>
    obtain ⟨name, f⟩ := p
    cases hv : computeEntryVal env prepare obj name f with
    | error e =>
      simp only [serialize_object, hv] at h
      exact Except.noConfusion h
    | ok v =>
      cases hr : serialize_object env prepare rest obj with
      | error e =>
        simp only [serialize_object, hv, hr] at h
        exact Except.noConfusion h
      | ok doc2 =>
        simp only [serialize_object, hv, hr] at h
        cases h
        exact List.Forall₂.cons ⟨rfl, hv⟩ (ih doc2 hr)

/-- Lookup into a successful serialization result: the first field with a
given name determines the document entry. -/
theorem serialize_object_dlookup (env : Env)
    (prepare : String → Option (Record → Except Err OptVal))
    (flds : List (String × Field)) (obj : Record) (doc : List (String × OptVal))
    (h : serialize_object env prepare flds obj = .ok doc) (n : String) :
    dlookup doc n = (match dlookup flds n with
      | none => none
      | some f => (computeEntryVal env prepare obj n f).toOption) := by
  induction flds generalizing doc with
  | nil =>
    simp only [serialize_object] at h
    cases h
    rfl
  | cons p rest ih =>
    obtain ⟨name, f⟩ := p
    cases hv : computeEntryVal env prepare obj name f with
    | error e =>
      simp only [serialize_object, hv] at h
      exact Except.noConfusion h
    | ok v =>
      cases hr : serialize_object env prepare rest obj with
      | error e =>
        simp only [serialize_object, hv, hr] at h
        exact Except.noConfusion h
      | ok doc2 =>
        simp only [serialize_object, hv, hr] at h
        cases h
        by_cases hn : name = n
        · subst hn
          simp [dlookup, hv, Except.toOption]
        · simp [dlookup, hn, ih doc2 hr]

/-- Name presence in a successful serialization result matches the field
dictionary. -/
theorem serialize_object_dlookup_isSome (env : Env)
    (prepare : String → Option (Record → Except Err OptVal))
    (flds : List (String × Field)) (obj : Record) (doc : List (String × OptVal))
    (h : serialize_object env prepare flds obj = .ok doc) (n : String) :
    (dlookup doc n).isSome = (dlookup flds n).isSome := by
  induction flds generalizing doc with
  | nil =>
    simp only [serialize_object] at h
    cases h
    rfl
  | cons p rest ih =>
    obtain ⟨name, f⟩ := p
    cases hv : computeEntryVal env prepare obj name f with
    | error e =>
      simp only [serialize_object, hv] at h
      exact Except.noConfusion h
    | ok v =>
      cases hr : serialize_object env prepare rest obj with
      | error e =>
        simp only [serialize_object, hv, hr] at h
        exact Except.noConfusion h
      | ok doc2 =>
        simp only [serialize_object, hv, hr] at h
        cases h
        by_cases hn : name = n
        · subst hn
          simp [dlookup]
        · simp [dlookup, hn, ih doc2 hr]

/-- Claim C3: a successfully serialized document has exactly the declared
field names as keys, in declaration order, and each entry value comes
from the descriptor-specific prepare override when the index defines one,
else from the field descriptor value resolution. -/
theorem C3_serialize_keys_values (env : Env)
    (prepare : String → Option (Record → Except Err OptVal))
    (flds : List (String × Field)) (obj : Record) (doc : List (String × OptVal))
    (h : serialize_object env prepare flds obj = .ok doc) :
    dkeys doc = dkeys flds ∧
    List.Forall₂ (fun (p : String × Field) (q : String × OptVal) =>
      q.1 = p.1 ∧ computeEntryVal env prepare obj p.1 p.2 = .ok q.2) flds doc := by
  have hf := serialize_object_forall2 env prepare flds obj doc h
  refine ⟨?_, hf⟩
  clear h
  induction hf with
  | nil => rfl
  | cons hpq hrest ihk =>
    simp [dkeys] at ihk ⊢
    exact ⟨hpq.1, ihk⟩

/-- Witness for C3: a one-field index serialized against an object record. -/
theorem C3_witness :
    dkeys [("flag", OptVal.pybool true)] = dkeys [("flag", sampleAttrField)] ∧
    List.Forall₂ (fun (p : String × Field) (q : String × OptVal) =>
      q.1 = p.1 ∧ computeEntryVal trivEnv noPrepare
        (Record.obj [("flag", RVal.plain (OptVal.pybool true))]) p.1 p.2 = .ok q.2)
      [("flag", sampleAttrField)] [("flag", OptVal.pybool true)] :=
  C3_serialize_keys_values trivEnv noPrepare [("flag", sampleAttrField)]
    (Record.obj [("flag", RVal.plain (OptVal.pybool true))])
    [("flag", OptVal.pybool true)] (by decide)

/-- Claim C10: the metaclass installs an id alias: construction fails
exactly when no field carries the Meta.id_field name; otherwise the field
dictionary maps the reserved id name to the very descriptor registered
under id_field, and a successfully serialized document (with no prepare
override for either name) carries equal values under both names, the id
entry being present. -/
theorem C10_id_alias (flds : List (String × Field)) (idf : String)
    (out : List (String × Field)) :
    ((buildIndexFields flds idf).isOk = true ↔ (dlookup flds idf).isSome = true) ∧
    (buildIndexFields flds idf = .ok out →
       dlookup out "_id" = dlookup flds idf ∧ dlookup out "_id" = dlookup out idf) ∧
    (buildIndexFields flds idf = .ok out →
       ∀ (env : Env) (prepare : String → Option (Record → Except Err OptVal))
         (obj : Record) (doc : List (String × OptVal)),
         prepare "_id" = none → prepare idf = none →
         serialize_object env prepare out obj = .ok doc →
         dlookup doc "_id" = dlookup doc idf ∧ (dlookup doc "_id").isSome = true) := by
  refine ⟨?_, ?_, ?_⟩
  · unfold buildIndexFields
    cases hd : dlookup flds idf
    · simp [Except.isOk, Except.toBool]
    · simp [Except.isOk, Except.toBool]
  · intro hout
    unfold buildIndexFields at hout
    cases hd : dlookup flds idf with
    | none => rw [hd] at hout; cases hout
    | some f =>
      rw [hd] at hout
      cases hout
      constructor
      · rw [dlookup_dinsert_self]
      · by_cases hid : idf = "_id"
        · rw [hid]
        · rw [dlookup_dinsert_self, dlookup_dinsert_other flds "_id" idf f hid, hd]
  · intro hout env prepare obj doc hp1 hp2 hdoc
    unfold buildIndexFields at hout
    cases hd : dlookup flds idf with
    | none => rw [hd] at hout; cases hout
    | some f =>
      rw [hd] at hout
      cases hout
      have hid1 : dlookup (dinsert flds "_id" f) "_id" = some f := dlookup_dinsert_self flds "_id" f
      have hid2 : dlookup (dinsert flds "_id" f) idf = some f := by
        by_cases hid : idf = "_id"
        · rw [hid]
          exact dlookup_dinsert_self flds "_id" f
        · rw [dlookup_dinsert_other flds "_id" idf f hid, hd]
      constructor
      · rw [serialize_object_dlookup env prepare _ obj doc hdoc "_id",
            serialize_object_dlookup env prepare _ obj doc hdoc idf, hid1, hid2]
        simp only [computeEntryVal, hp1, hp2]
      · rw [serialize_object_dlookup_isSome env prepare _ obj doc hdoc "_id", hid1]
        rfl

/-- Witness for C10: a single id field with its installed alias,
serialized against a record. -/
theorem C10_witness :
    dlookup [("flag", OptVal.pybool true), ("_id", OptVal.pybool true)] "_id"
        = dlookup [("flag", OptVal.pybool true), ("_id", OptVal.pybool true)] "flag" ∧
    (dlookup [("flag", OptVal.pybool true), ("_id", OptVal.pybool true)] "_id").isSome = true :=
  (C10_id_alias [("flag", sampleAttrField)] "flag"
      [("flag", sampleAttrField), ("_id", sampleAttrField)]).2.2 (by decide)
    trivEnv noPrepare (Record.obj [("flag", RVal.plain (OptVal.pybool true))])
    [("flag", OptVal.pybool true), ("_id", OptVal.pybool true)] rfl rfl (by decide)

/-!
Analyzer collection: last-writer characterization of the fold, key
uniqueness, and idempotence of repeated references.
-/

theorem dlookup_dupdate {β : Type} (e c : List (String × β)) (k : String) :
    dlookup (dupdate c e) k = oelse (dlookup e.reverse k) (dlookup c k) := by
  induction e generalizing c with
  | nil => simp [dupdate, dlookup, oelse]
  | cons x e ih =>
    obtain ⟨a, b⟩ := x
    have hstep : dupdate c ((a, b) :: e) = dupdate (dinsert c a b) e := rfl
    rw [hstep, ih, List.reverse_cons, dlookup_append]
    by_cases hk : a = k
    · subst hk
      rw [dlookup_dinsert_self]
      have h1 : dlookup [(a, b)] a = some b := by simp [dlookup]
      rw [h1, oelse_assoc]
      cases dlookup e.reverse a <;> rfl
    · rw [dlookup_dinsert_other c a k b (fun c2 => hk c2.symm)]
      have h1 : dlookup [(a, b)] k = none := by simp [dlookup, hk]
      rw [h1, oelse_none_right]

theorem lookup2_applySection (an : List (String × List (String × String)))
    (p : String × List (String × String)) (k1 k2 : String) :
    lookup2 (applySection an p) k1 k2 =
      if p.1 = k1 then oelse (dlookup p.2.reverse k2) (lookup2 an k1 k2)
      else lookup2 an k1 k2 := by
  by_cases hk : p.1 = k1
  · subst hk
    rw [if_pos rfl]
    have h1 : dlookup (applySection an p) p.1
        = some (dupdate ((dlookup an p.1).getD []) p.2) :=
      dlookup_dinsert_self an p.1 _
    unfold lookup2
    simp only [h1]
    rw [dlookup_dupdate]
    cases hcur : dlookup an p.1 with
    | none => simp [hcur, dlookup]
    | some sec => simp [hcur]
  · rw [if_neg hk]
    unfold lookup2
    rw [show dlookup (applySection an p) k1 = dlookup an k1 from
      dlookup_dinsert_other an p.1 k1 _ (fun c => hk c.symm)]

theorem sectionWrite_foldl_init (σ : List (String × List (String × String)))
    (k1 k2 : String) (a : Option String) :
    σ.foldl (fun acc p => if p.1 = k1 then oelse (dlookup p.2.reverse k2) acc else acc) a
      = oelse (sectionWrite σ k1 k2) a := by
  induction σ generalizing a with
  | nil => simp [sectionWrite, oelse]
  | cons x σ ih =>
    have hW : sectionWrite (x :: σ) k1 k2
        = oelse (sectionWrite σ k1 k2)
            (if x.1 = k1 then oelse (dlookup x.2.reverse k2) none else none) := by
      unfold sectionWrite
      rw [List.foldl_cons]
      exact ih _
    rw [List.foldl_cons, ih, hW, oelse_assoc]
    congr 1
    show (if x.1 = k1 then oelse (dlookup x.2.reverse k2) a else a)
        = oelse (if x.1 = k1 then oelse (dlookup x.2.reverse k2) none else none) a
    by_cases hx : x.1 = k1
    · rw [if_pos hx, if_pos hx, oelse_none_right]
    · rw [if_neg hx, if_neg hx]
      rfl

theorem sectionWrite_cons (x : String × List (String × String))
    (σ : List (String × List (String × String))) (k1 k2 : String) :
    sectionWrite (x :: σ) k1 k2
      = oelse (sectionWrite σ k1 k2)
          (if x.1 = k1 then oelse (dlookup x.2.reverse k2) none else none) := by
  unfold sectionWrite
  rw [List.foldl_cons]
  exact sectionWrite_foldl_init σ k1 k2 _

theorem lookup2_foldl (σ : List (String × List (String × String)))
    (an : List (String × List (String × String))) (k1 k2 : String) :
    lookup2 (σ.foldl applySection an) k1 k2
      = oelse (sectionWrite σ k1 k2) (lookup2 an k1 k2) := by
  induction σ generalizing an with
  | nil => simp [sectionWrite, oelse]
  | cons x σ ih =>
    rw [List.foldl_cons, ih, lookup2_applySection, sectionWrite_cons, oelse_assoc]
    congr 1
    by_cases hx : x.1 = k1
    · rw [if_pos hx, if_pos hx, oelse_none_right]
    · rw [if_neg hx, if_neg hx]
      rfl

theorem lookup2_foldl_replay (σ an : List (String × List (String × String)))
    (k1 k2 : String) :
    lookup2 (σ.foldl applySection (σ.foldl applySection an)) k1 k2
      = lookup2 (σ.foldl applySection an) k1 k2 := by
  rw [lookup2_foldl, lookup2_foldl, oelse_self_left]

theorem applyAnalyzerVal_eq_foldl (an : List (String × List (String × String)))
    (v : OptVal) :
    applyAnalyzerVal an v = (secsOf v).foldl applySection an := by
  cases v with
  | analyzerObj a =>
    cases hd : a.analysisDefinition with
    | none => simp [applyAnalyzerVal, secsOf, hd]
    | some defn => simp [applyAnalyzerVal, secsOf, hd]
  | str s => rfl
  | num n => rfl
  | pybool b => rfl
  | pynone => rfl

theorem foldl_vals_eq_sections (vs : List OptVal)
    (an : List (String × List (String × String))) :
    vs.foldl applyAnalyzerVal an = (vs.flatMap secsOf).foldl applySection an := by
  induction vs generalizing an with
  | nil => rfl
  | cons v vs ih =>
    rw [List.foldl_cons, List.flatMap_cons, List.foldl_append,
        applyAnalyzerVal_eq_foldl, ih]

theorem collect_analysis_append (l1 l2 : List Field) :
    collect_analysis (l1 ++ l2)
      = l2.foldl (fun an f => (fieldAnalyzerVals f).foldl applyAnalyzerVal an)
          (collect_analysis l1) := by
  unfold collect_analysis
  rw [List.foldl_append]

theorem collect_dup (l : List Field) (f : Field) (k1 k2 : String) :
    lookup2 (collect_analysis (l ++ [f, f])) k1 k2
      = lookup2 (collect_analysis (l ++ [f])) k1 k2 := by
  rw [collect_analysis_append, collect_analysis_append]
  simp only [List.foldl_cons, List.foldl_nil]
  simp only [foldl_vals_eq_sections]
  exact lookup2_foldl_replay _ _ k1 k2

theorem foldl_applySection_isSome (σ an : List (String × List (String × String)))
    (k : String) :
    (dlookup (σ.foldl applySection an) k).isSome
      = ((dlookup an k).isSome || σ.any (fun p => p.1 == k)) := by
  induction σ generalizing an with
  | nil => simp
  | cons x σ ih =>
    rw [List.foldl_cons, ih, List.any_cons]
    by_cases hk : x.1 = k
    · have h1 : dlookup (applySection an x) k
          = some (dupdate ((dlookup an x.1).getD []) x.2) := by
        rw [← hk]
        exact dlookup_dinsert_self an x.1 _
      simp [h1, hk]
    · have h1 : dlookup (applySection an x) k = dlookup an k :=
        dlookup_dinsert_other an x.1 k _ (fun c => hk c.symm)
      have h2 : (x.1 == k) = false := by simp [hk]
      simp [h1, h2, Bool.or_assoc]

theorem collect_dup_isSome (l : List Field) (f : Field) (k : String) :
    (dlookup (collect_analysis (l ++ [f, f])) k).isSome
      = (dlookup (collect_analysis (l ++ [f])) k).isSome := by
  rw [collect_analysis_append, collect_analysis_append]
  simp only [List.foldl_cons, List.foldl_nil]
  simp only [foldl_vals_eq_sections]
  simp only [foldl_applySection_isSome]
  rw [Bool.or_assoc, Bool.or_self]

theorem nodup_dkeys_dupdate {β : Type} (e c : List (String × β))
    (h : (dkeys c).Nodup) : (dkeys (dupdate c e)).Nodup := by
  induction e generalizing c with
  | nil => exact h
  | cons x e ih => exact ih (dinsert c x.1 x.2) (nodup_dkeys_dinsert c x.1 x.2 h)

theorem secInv_applySection (an : List (String × List (String × String)))
    (p : String × List (String × String)) (h : secInv an) :
    secInv (applySection an p) := by
  obtain ⟨h1, h2⟩ := h
  constructor
  · exact nodup_dkeys_dinsert _ _ _ h1
  · intro q hq
    rcases mem_dinsert hq with hm | hm
    · exact h2 q hm
    · rw [hm]
      apply nodup_dkeys_dupdate
      cases hcur : dlookup an p.1 with
      | none => simp [dkeys]
      | some sec =>
        have hmem := h2 (p.1, sec) (dlookup_mem hcur)
        simpa using hmem

theorem secInv_foldl_applySection (σ an : List (String × List (String × String)))
    (h : secInv an) : secInv (σ.foldl applySection an) := by
  induction σ generalizing an with
  | nil => exact h
  | cons x σ ih => exact ih (applySection an x) (secInv_applySection an x h)

theorem secInv_applyAnalyzerVal (an : List (String × List (String × String)))
    (v : OptVal) (h : secInv an) : secInv (applyAnalyzerVal an v) := by
  rw [applyAnalyzerVal_eq_foldl]
  exact secInv_foldl_applySection _ _ h

theorem secInv_foldl_vals (vs : List OptVal)
    (an : List (String × List (String × String))) (h : secInv an) :
    secInv (vs.foldl applyAnalyzerVal an) := by
  induction vs generalizing an with
  | nil => exact h
  | cons v vs ih => exact ih _ (secInv_applyAnalyzerVal an v h)

theorem secInv_foldl_fields (flds : List Field)
    (an : List (String × List (String × String))) (h : secInv an) :
    secInv (flds.foldl (fun an f => (fieldAnalyzerVals f).foldl applyAnalyzerVal an) an) := by
  induction flds generalizing an with
  | nil => exact h
  | cons f flds ih => exact ih _ (secInv_foldl_vals (fieldAnalyzerVals f) an h)

theorem secInv_collect (flds : List Field) : secInv (collect_analysis flds) := by
  have hnil : secInv ([] : List (String × List (String × String))) := by
    constructor
    · exact List.nodup_nil
    · intro p hp
      cases hp
  exact secInv_foldl_fields flds [] hnil

theorem applyAnalyzerVal_plain (an : List (String × List (String × String)))
    (v : OptVal) (h : isAnalyzerObjVal v = false) : applyAnalyzerVal an v = an := by
  cases v with
  | analyzerObj a => simp [isAnalyzerObjVal] at h
  | str s => rfl
  | num n => rfl
  | pybool b => rfl
  | pynone => rfl

theorem foldl_vals_plain (vs : List OptVal)
    (an : List (String × List (String × String)))
    (h : ∀ v ∈ vs, isAnalyzerObjVal v = false) :
    vs.foldl applyAnalyzerVal an = an := by
  induction vs generalizing an with
  | nil => rfl
  | cons v vs ih =>
    rw [List.foldl_cons, applyAnalyzerVal_plain an v (h v (List.mem_cons_self v vs))]
    exact ih an (fun w hw => h w (List.mem_cons_of_mem v hw))

theorem collect_plain_field (l : List Field) (f : Field)
    (h : ∀ v ∈ fieldAnalyzerVals f, isAnalyzerObjVal v = false) :
    collect_analysis (l ++ [f]) = collect_analysis l := by
  rw [collect_analysis_append]
  simp only [List.foldl_cons, List.foldl_nil]
  exact foldl_vals_plain (fieldAnalyzerVals f) (collect_analysis l) h

/-- Claim C7: analyzer collection produces a dictionary with unique
section names and unique analyzer names inside each section, so every
referenced analyzer definition appears exactly once per definition key;
a second reference to the same analyzers changes neither the entries nor
the present keys; and fields whose analyzer options are plain names
contribute nothing. -/
theorem C7_analyzer_collection (flds l : List Field) (f : Field) :
    ((dkeys (collect_analysis flds)).Nodup ∧
     (∀ k sec, dlookup (collect_analysis flds) k = some sec → (dkeys sec).Nodup)) ∧
    (∀ k1 k2, lookup2 (collect_analysis (l ++ [f, f])) k1 k2
        = lookup2 (collect_analysis (l ++ [f])) k1 k2) ∧
    (∀ k, (dlookup (collect_analysis (l ++ [f, f])) k).isSome
        = (dlookup (collect_analysis (l ++ [f])) k).isSome) ∧
    ((∀ v ∈ fieldAnalyzerVals f, isAnalyzerObjVal v = false) →
      collect_analysis (l ++ [f]) = collect_analysis l) := by
  refine ⟨⟨(secInv_collect flds).1, ?_⟩, ?_, ?_, ?_⟩
  · intro k sec hs
    exact (secInv_collect flds).2 (k, sec) (dlookup_mem hs)
  · intro k1 k2
    exact collect_dup l f k1 k2
  · intro k
    exact collect_dup_isSome l f k
  · exact collect_plain_field l f

/-- Witness for C7: a field referencing a concrete analyzer twice adds
nothing, the section lookups agree, and a plain-name analyzer field
contributes nothing. -/
theorem C7_witness :
    lookup2 (collect_analysis ([sampleAnalyzerField] ++ [sampleAnalyzerField, sampleAnalyzerField]))
        "analyzer" "custom_analyzer"
      = lookup2 (collect_analysis ([sampleAnalyzerField] ++ [sampleAnalyzerField]))
        "analyzer" "custom_analyzer" ∧
    collect_analysis ([sampleAnalyzerField] ++ [samplePlainField])
      = collect_analysis [sampleAnalyzerField] ∧
    (dkeys [("custom_analyzer", "body")]).Nodup :=
  ⟨(C7_analyzer_collection [sampleAnalyzerField] [sampleAnalyzerField] sampleAnalyzerField).2.1
      "analyzer" "custom_analyzer",
   (C7_analyzer_collection [sampleAnalyzerField] [sampleAnalyzerField] samplePlainField).2.2.2
      (by decide),
   (C7_analyzer_collection [sampleAnalyzerField] [sampleAnalyzerField] sampleAnalyzerField).1.2
      "analyzer" [("custom_analyzer", "body")] (by decide)⟩

/-!
Immutability: the cached_property slot for base_field is the only mutable
state; under a sound cache, every operation computes the same result as a
pure function of the constructed attributes and keeps the attributes.
-/

theorem readBase_good (s : FieldState) (h : goodFS s) :
    (readBase s).1 = computeBase s.fld ∧ (readBase s).2.fld = s.fld ∧
    goodFS (readBase s).2 := by
  cases hc : s.baseCache with
  | none =>
    refine ⟨?_, ?_, ?_⟩ <;> simp [readBase, hc, goodFS]
  | some b =>
    rcases h with h | h
    · rw [hc] at h
      cases h
    · rw [hc] at h
      injection h with h
      refine ⟨?_, ?_, ?_⟩ <;> simp [readBase, hc, goodFS, h]

theorem fieldValueSt_good (env : Env) (s : FieldState) (obj : Record) (h : goodFS s) :
    (fieldValueSt env s obj).1 = fieldValue env s.fld obj ∧
    (fieldValueSt env s obj).2.fld = s.fld ∧ goodFS (fieldValueSt env s obj).2 := by
  obtain ⟨h1, h2, h3⟩ := readBase_good s h
  have heq : fieldValueSt env s obj = (fieldValue env s.fld obj, (readBase s).2) := by
    unfold fieldValueSt fieldValue
    rw [h1]
    cases fieldValueCore env (computeBase s.fld) s.fld obj <;> rfl
  rw [heq]
  exact ⟨rfl, h2, h3⟩

theorem jsonSt_good (env : Env) (s : FieldState) (h : goodFS s) :
    (jsonSt env s).1 = fieldJson env (computeBase s.fld) s.fld ∧
    (jsonSt env s).2.fld = s.fld ∧ goodFS (jsonSt env s).2 := by
  obtain ⟨h1, h2, h3⟩ := readBase_good s h
  unfold jsonSt
  rw [h1]
  exact ⟨rfl, h2, h3⟩

theorem valueAt_good (env : Env) (name : String) (obj : Record) (st : IndexSt)
    (h : goodIdx st) :
    (valueAt env name obj st).1
        = (dlookup (stFields st) name).map (fun f => fieldValue env f obj) ∧
    stFields (valueAt env name obj st).2 = stFields st ∧
    goodIdx (valueAt env name obj st).2 := by
  induction st with
  | nil => exact ⟨rfl, rfl, h⟩
  | cons p rest ih =>
    have hp : goodFS p.2 := h p (List.mem_cons_self p rest)
    have hrest : goodIdx rest := fun q hq => h q (List.mem_cons_of_mem p hq)
    obtain ⟨ih1, ih2, ih3⟩ := ih hrest
    by_cases hn : p.1 = name
    · obtain ⟨f1, f2, f3⟩ := fieldValueSt_good env p.2 obj hp
      refine ⟨?_, ?_, ?_⟩
      · simp only [valueAt, if_pos hn]
        rw [f1]
        simp [stFields, dlookup, hn]
      · simp only [valueAt, if_pos hn]
        simp [stFields, f2]
      · simp only [valueAt, if_pos hn]
        intro q hq
        rcases List.mem_cons.mp hq with hq1 | hq1
        · rw [hq1]
          exact f3
        · exact hrest q hq1
    · refine ⟨?_, ?_, ?_⟩
      · simp only [valueAt, if_neg hn]
        rw [ih1]
        simp [stFields, dlookup, hn]
      · simp only [valueAt, if_neg hn]
        simp [stFields] at ih2 ⊢
        exact ih2
      · simp only [valueAt, if_neg hn]
        intro q hq
        rcases List.mem_cons.mp hq with hq1 | hq1
        · rw [hq1]
          exact hp
        · exact ih3 q hq1

theorem serializeObjSt_good (env : Env)
    (prepare : String → Option (Record → Except Err OptVal)) (obj : Record)
    (st : IndexSt) (h : goodIdx st) :
    (serializeObjSt env prepare obj st).1
        = serialize_object env prepare (stFields st) obj ∧
    stFields (serializeObjSt env prepare obj st).2 = stFields st ∧
    goodIdx (serializeObjSt env prepare obj st).2 := by
  induction st with
  | nil => exact ⟨rfl, rfl, h⟩
  | cons p rest ih =>
    obtain ⟨name, fs⟩ := p
    have hp : goodFS fs := h (name, fs) (List.mem_cons_self _ _)
    have hrest : goodIdx rest := fun q hq => h q (List.mem_cons_of_mem _ hq)
    obtain ⟨ih1, ih2, ih3⟩ := ih hrest
    obtain ⟨f1, f2, f3⟩ := fieldValueSt_good env fs obj hp
    have hsf : stFields ((name, fs) :: rest) = (name, fs.fld) :: stFields rest := rfl
    cases hpre : prepare name with
    | some prep =>
      cases hv : prep obj with
      | error e =>
        refine ⟨?_, ?_, ?_⟩
        · simp only [serializeObjSt, hpre, hv]
          rw [hsf]
          simp [serialize_object, computeEntryVal, hpre, hv]
        · simp only [serializeObjSt, hpre, hv]
        · simp only [serializeObjSt, hpre, hv]
          exact h
      | ok v =>
        refine ⟨?_, ?_, ?_⟩
        · have hrhs : serialize_object env prepare ((name, fs.fld) :: stFields rest) obj
              = (match serialize_object env prepare (stFields rest) obj with
                 | .error e => .error e
                 | .ok doc => .ok ((name, v) :: doc)) := by
            simp only [serialize_object, computeEntryVal, hpre, hv]
          rw [hsf, hrhs]
          simp only [serializeObjSt, hpre, hv]
          rw [ih1]
        · simp only [serializeObjSt, hpre, hv]
          simp [stFields] at ih2 ⊢
          exact ih2
        · simp only [serializeObjSt, hpre, hv]
          intro q hq
          rcases List.mem_cons.mp hq with hq1 | hq1
          · rw [hq1]
            exact hp
          · exact ih3 q hq1
    | none =>
      cases hv : (fieldValueSt env fs obj).1 with
      | error e =>
        have hv2 : fieldValue env fs.fld obj = .error e := f1.symm.trans hv
        refine ⟨?_, ?_, ?_⟩
        · simp only [serializeObjSt, hpre, hv]
          rw [hsf]
          simp [serialize_object, computeEntryVal, hpre, hv2]
        · simp only [serializeObjSt, hpre, hv]
          simp [stFields, f2]
        · simp only [serializeObjSt, hpre, hv]
          intro q hq
          rcases List.mem_cons.mp hq with hq1 | hq1
          · rw [hq1]
            exact f3
          · exact hrest q hq1
      | ok v =>
        have hv2 : fieldValue env fs.fld obj = .ok v := f1.symm.trans hv
        refine ⟨?_, ?_, ?_⟩
        · have hrhs : serialize_object env prepare ((name, fs.fld) :: stFields rest) obj
              = (match serialize_object env prepare (stFields rest) obj with
                 | .error e => .error e
                 | .ok doc => .ok ((name, v) :: doc)) := by
            simp only [serialize_object, computeEntryVal, hpre, hv2]
          rw [hsf, hrhs]
          simp only [serializeObjSt, hpre, hv]
          rw [ih1]
        · simp only [serializeObjSt, hpre, hv]
          simp [stFields, f2] at ih2 ⊢
          exact ih2
        · simp only [serializeObjSt, hpre, hv]
          intro q hq
          rcases List.mem_cons.mp hq with hq1 | hq1
          · rw [hq1]
            exact f3
          · exact ih3 q hq1

theorem mappingSt_good (env : Env) (b : Bool) (st : IndexSt) (h : goodIdx st) :
    (mappingSt env b st).1 = get_mapping env (stFields st) b ∧
    stFields (mappingSt env b st).2 = stFields st ∧
    goodIdx (mappingSt env b st).2 := by
  induction st with
  | nil => exact ⟨rfl, rfl, h⟩
  | cons p rest ih =>
    obtain ⟨name, fs⟩ := p
    have hp : goodFS fs := h (name, fs) (List.mem_cons_self _ _)
    have hrest : goodIdx rest := fun q hq => h q (List.mem_cons_of_mem _ hq)
    obtain ⟨ih1, ih2, ih3⟩ := ih hrest
    obtain ⟨j1, j2, j3⟩ := jsonSt_good env fs hp
    have hsf : stFields ((name, fs) :: rest) = (name, fs.fld) :: stFields rest := rfl
    have hgm : get_mapping env ((name, fs.fld) :: stFields rest) b
        = if b || !(meta_fields.contains name) then
            (name, fieldJson env (computeBase fs.fld) fs.fld)
              :: get_mapping env (stFields rest) b
          else get_mapping env (stFields rest) b := get_mapping_cons env (name, fs.fld) _ b
    by_cases hc : (b || !(meta_fields.contains name)) = true
    · refine ⟨?_, ?_, ?_⟩
      · simp only [mappingSt, if_pos hc]
        rw [hsf, hgm, if_pos hc, j1, ih1]
      · simp only [mappingSt, if_pos hc]
        simp [stFields, j2] at ih2 ⊢
        exact ih2
      · simp only [mappingSt, if_pos hc]
        intro q hq
        rcases List.mem_cons.mp hq with hq1 | hq1
        · rw [hq1]
          exact j3
        · exact ih3 q hq1
    · refine ⟨?_, ?_, ?_⟩
      · simp only [mappingSt, if_neg hc]
        rw [hsf, hgm, if_neg hc, ih1]
      · simp only [mappingSt, if_neg hc]
        simp [stFields] at ih2 ⊢
        exact ih2
      · simp only [mappingSt, if_neg hc]
        intro q hq
        rcases List.mem_cons.mp hq with hq1 | hq1
        · rw [hq1]
          exact hp
        · exact ih3 q hq1

theorem stFields_map_snd (st : IndexSt) :
    (stFields st).map Prod.snd = st.map (fun p => p.2.fld) := by
  unfold stFields
  rw [List.map_map]
  rfl

theorem runOp_good (env : Env) (prepare : String → Option (Record → Except Err OptVal))
    (op : DescOp) (st : IndexSt) (h : goodIdx st) :
    (runOp env prepare op st).1 = opSpec env prepare (stFields st) op ∧
    stFields (runOp env prepare op st).2 = stFields st ∧
    goodIdx (runOp env prepare op st).2 := by
  cases op with
  | getValue name obj =>
    obtain ⟨a, b, c⟩ := valueAt_good env name obj st h
    exact ⟨by simp only [runOp, opSpec]; rw [a], by simp only [runOp]; exact b,
      by simp only [runOp]; exact c⟩
  | serializeObj obj =>
    obtain ⟨a, b, c⟩ := serializeObjSt_good env prepare obj st h
    exact ⟨by simp only [runOp, opSpec]; rw [a], by simp only [runOp]; exact b,
      by simp only [runOp]; exact c⟩
  | mapping mb =>
    obtain ⟨a, b, c⟩ := mappingSt_good env mb st h
    exact ⟨by simp only [runOp, opSpec]; rw [a], by simp only [runOp]; exact b,
      by simp only [runOp]; exact c⟩
  | collectAnalysisOp =>
    refine ⟨?_, rfl, h⟩
    simp only [runOp, opSpec]
    rw [stFields_map_snd]

theorem runOps_good (env : Env) (prepare : String → Option (Record → Except Err OptVal))
    (ops : List DescOp) (st : IndexSt) (h : goodIdx st) :
    (runOps env prepare ops st).1 = ops.map (opSpec env prepare (stFields st)) ∧
    stFields (runOps env prepare ops st).2 = stFields st ∧
    goodIdx (runOps env prepare ops st).2 := by
  induction ops generalizing st with
  | nil => exact ⟨rfl, rfl, h⟩
  | cons op ops ih =>
    obtain ⟨a, b, c⟩ := runOp_good env prepare op st h
    obtain ⟨d, e2, f⟩ := ih (runOp env prepare op st).2 c
    refine ⟨?_, ?_, f⟩
    · simp only [runOps, List.map_cons]
      rw [a, d, b]
    · simp only [runOps]
      rw [e2, b]

/-- Claim C5: field and index descriptors are immutable after
construction in every observable way: running any sequence of
post-construction operations (value resolution, document serialization,
mapping generation, analyzer collection) on a freshly constructed index
returns, call for call, the same results as running each operation alone
on the fresh index, and the constructed attributes of every field are
unchanged at the end. -/
theorem C5_descriptors_immutable (env : Env)
    (prepare : String → Option (Record → Except Err OptVal))
    (flds : List (String × Field)) (ops : List DescOp) :
    (runOps env prepare ops (freshIdx flds)).1
        = ops.map (fun op => (runOp env prepare op (freshIdx flds)).1) ∧
    stFields (runOps env prepare ops (freshIdx flds)).2 = flds := by
  have hfresh : goodIdx (freshIdx flds) := by
    intro q hq
    unfold freshIdx at hq
    rcases List.mem_map.mp hq with ⟨p, hp, hq2⟩
    rw [← hq2]
    left
    rfl
  have hst : stFields (freshIdx flds) = flds := by
    unfold stFields freshIdx
    rw [List.map_map]
    have : ((fun p : String × FieldState => (p.1, p.2.fld))
        ∘ fun p : String × Field => (p.1, freshFS p.2)) = id := by
      funext p
      rfl
    rw [this, List.map_id]
  obtain ⟨a, b, c⟩ := runOps_good env prepare ops (freshIdx flds) hfresh
  constructor
  · rw [a, hst]
    apply List.map_congr_left
    intro op hop
    rw [(runOp_good env prepare op (freshIdx flds) hfresh).1, hst]
  · rw [b, hst]

end Bungiesearch
